import Mathlib

/-!
Shallow embedding of `himalaya/ridge/_hyper_gradient.py` and
`himalaya/utils.py` (functions `solve_multiple_kernel_ridge_hyper_gradient`,
`_init_multiple_kernel_ridge`, `_compute_delta_gradient`,
`_compute_deltas_hessian`, `compute_lipschitz_constants`).

Modelling conventions:
* Numeric arrays are real-valued and carried as a structure holding the
  shape together with a total entry function (`RMat` for 2-d arrays,
  `RTen` for 3-d arrays); entries outside the declared shape are junk and
  never constrained.
* The external kernel-ridge solvers (`solve_kernel_ridge_conjugate_gradient`,
  `solve_kernel_ridge_gradient_descent`, `solve_kernel_ridge_neumann_series`)
  live in `_kernel_ridge.py`, outside the sources under study; they are
  black boxes for every claim and are taken as opaque function parameters,
  exactly as the spec treats them (spec section 1, "out of scope").
* `backend.randn` draws are passed in as explicit function parameters.
* Python exceptions (`raise ValueError`, failing `assert`) are modelled by
  an `Except HgError` result; each raise/assert site has its own error
  value, the `ValueError` sites carrying the offending parameter's value.
* Overflow of the floating-point `exp` (`backend.isinf`) has no counterpart
  on ℝ; the `isinf` test is modelled by an arbitrary boolean predicate
  `isInf : ℝ → Bool` supplied as a parameter, so that the abort-on-inf
  control flow of the source is preserved verbatim.
* String-valued method switches (`kernel_ridge_method`,
  `hyper_gradient_method`, `kernelize`) are closed enumerations with an
  extra constructor `other` standing for any unrecognized string.
* The delta-gradient evaluator additionally reports the list of inner
  linear-solver invocations it performed (`DGOut.callTrace`); this is the
  call-count instrumentation the spec itself asks for (spec section 8) and
  is ignored by the driver.
-/

namespace Himalaya

/-- A 2-d real array: shape plus entry function. -/
structure RMat where
  rows : ℕ
  cols : ℕ
  entry : ℕ → ℕ → ℝ

instance : Inhabited RMat := ⟨⟨0, 0, fun _ _ => 0⟩⟩

/-- A 3-d real array: shape plus entry function. -/
structure RTen where
  d0 : ℕ
  d1 : ℕ
  d2 : ℕ
  entry : ℕ → ℕ → ℕ → ℝ

instance : Inhabited RTen := ⟨⟨0, 0, 0, fun _ _ _ => 0⟩⟩

/-- One cross-validation fold: train and validation sample indices
(`cv_splitter.split(Y)` yields these pairs). -/
structure Fold where
  train : List ℕ
  val : List ℕ

instance : Inhabited Fold := ⟨⟨[], []⟩⟩

/-- `backend.exp` applied entrywise to a 2-d array. -/
noncomputable def expMat (m : RMat) : RMat :=
  ⟨m.rows, m.cols, fun i j => Real.exp (m.entry i j)⟩

/-- Row/column submatrix `M[rows, start:start+width]` (fancy row indexing
plus a column slice, as in `Y[train, batch]`). -/
def sliceY (M : RMat) (rows : List ℕ) (start width : ℕ) : RMat :=
  ⟨rows.length, width, fun i t => M.entry (rows.getD i 0) (start + t)⟩

/-- Column slice `M[:, start:start+width]`. -/
def colsSlice (M : RMat) (start width : ℕ) : RMat :=
  ⟨M.rows, width, fun i t => M.entry i (start + t)⟩

/-- Kernel sub-tensor `Ks[:, rows[:, None], cols]`. -/
def sliceK (Ks : RTen) (rows cols : List ℕ) : RTen :=
  ⟨Ks.d0, rows.length, cols.length,
    fun k i j => Ks.entry k (rows.getD i 0) (cols.getD j 0)⟩

/-- Write a block of columns back through a column-slice view:
`M[:, start:start+width] = B`. -/
def writeCols (M : RMat) (start width : ℕ) (B : RMat) : RMat :=
  ⟨M.rows, M.cols, fun i t =>
    if start ≤ t ∧ t < start + width then B.entry i (t - start) else M.entry i t⟩

/-- Write one row segment `M[r, start:start+width] = v` through a view. -/
def writeRow (M : RMat) (r start width : ℕ) (v : ℕ → ℝ) : RMat :=
  ⟨M.rows, M.cols, fun i c =>
    if i = r ∧ start ≤ c ∧ c < start + width then v (c - start) else M.entry i c⟩

/-- `backend.any(p(entry))` over the declared shape of a 2-d array. -/
def anyEntry (p : ℝ → Bool) (M : RMat) : Bool :=
  (List.range M.rows).any fun i => (List.range M.cols).any fun j => p (M.entry i j)

/-- Minimum of a list of reals (head-seeded fold; the source only applies
this to the nonempty stack of per-fold step sizes). -/
noncomputable def listMin : List ℝ → ℝ
  | [] => 0
  | x :: xs => xs.foldl min x

/-- `backend.max(backend.abs(M))` over the declared shape (the source only
applies this to nonempty arrays; absolute values are nonnegative so the
0 seed is neutral there). -/
noncomputable def maxAbsMat (M : RMat) : ℝ :=
  (List.range M.rows).foldl
    (fun a i => (List.range M.cols).foldl (fun b j => max b |M.entry i j|) a) 0

/-- Entrywise difference of two 2-d arrays. -/
def diffMat (A B : RMat) : RMat :=
  ⟨A.rows, A.cols, fun i j => A.entry i j - B.entry i j⟩

/-- `kernelize` mode switch of `compute_lipschitz_constants`; `other`
stands for any string besides the three recognized ones. -/
inductive Kernelize where
  | XTX
  | XXT
  | X
  | other (code : ℕ)
deriving DecidableEq

/-- `kernel_ridge_method` switch of the driver. -/
inductive KRMethod where
  | conjugate
  | gradient
  | other (code : ℕ)
deriving DecidableEq

/-- `hyper_gradient_method` switch of the delta-gradient evaluator. -/
inductive HGMethod where
  | conjugate
  | neumann
  | direct
  | other (code : ℕ)
deriving DecidableEq

/-- Python exceptions of the embedded code.  `invalid…` constructors are the
`raise ValueError("Unknown parameter …=%r")` sites — the constructor names
the offending parameter and carries its value; `assert…` constructors are
the `assert` statements in source order. -/
inductive HgError where
  | invalidKernelRidgeMethod (value : KRMethod)
  | invalidHyperGradientMethod (value : HGMethod)
  | invalidKernelize (value : Kernelize)
  | assertShapePredictions
  | assertShapeDirectGradient
  | assertShapeNabla
  | assertShapeIndirect
  | assertKsTrainMissing
  | assertTolMissing
  | assertInfGradient
  | assertInfExpDeltas
deriving DecidableEq

/-! ## `himalaya/utils.py`: `compute_lipschitz_constants` -/

/-- L2 norm of the first `n` components of a vector (`backend.norm(·, axis=1)`
on a column). -/
noncomputable def colNorm (n : ℕ) (v : ℕ → ℝ) : ℝ :=
  Real.sqrt (∑ i ∈ Finset.range n, v i ^ 2)

/-- One power-iteration sweep, iterated `n` times:
`ys /= norm(ys) + 1e-16; ys = kernels @ ys` (the loop body of
`compute_lipschitz_constants`). -/
noncomputable def powerIterate (K : RTen) : ℕ → (ℕ → ℕ → ℝ) → (ℕ → ℕ → ℝ)
  | 0, ys => ys
  | n + 1, ys =>
      powerIterate K n (fun m i =>
        ∑ j ∈ Finset.range K.d2,
          K.entry m i j * (ys m j / (colNorm K.d1 (ys m) + 1e-16)))

/-- Final eigenvalue estimates `backend.norm(ys, axis=1)[:, 0]` after the
fixed 10 power iterations. -/
noncomputable def powerEigs (K : RTen) (ys0 : ℕ → ℕ → ℝ) : ℕ → ℝ :=
  fun m => colNorm K.d1 (powerIterate K 10 ys0 m)

/-- `compute_lipschitz_constants(Xs, kernelize)` from `himalaya/utils.py`.
The random start vectors `backend.randn(*(kernels.shape[:2] + (1,)))` are
supplied as the parameter `ys0`. -/
noncomputable def compute_lipschitz_constants (Xs : RTen) (kernelize : Kernelize)
    (ys0 : ℕ → ℕ → ℝ) : Except HgError (ℕ → ℝ) :=
  match kernelize with
  | .XXT =>
      let kernels : RTen := ⟨Xs.d0, Xs.d1, Xs.d1,
        fun m i j => ∑ l ∈ Finset.range Xs.d2, Xs.entry m i l * Xs.entry m j l⟩
      .ok (powerEigs kernels ys0)
  | .XTX =>
      let kernels : RTen := ⟨Xs.d0, Xs.d2, Xs.d2,
        fun m i j => ∑ l ∈ Finset.range Xs.d1, Xs.entry m l i * Xs.entry m l j⟩
      .ok (powerEigs kernels ys0)
  | .X => .ok (powerEigs Xs ys0)
  | .other n => .error (.invalidKernelize (.other n))

/-! ## `_compute_deltas_hessian` -/

/-- `chi.T @ chi` batched over targets:
`matmul(transpose(exp_delta_chi, (2,0,1)), transpose(exp_delta_chi, (2,1,0)))`. -/
noncomputable def hessXTX (edc : RTen) : ℕ → ℕ → ℕ → ℝ :=
  fun t k l => ∑ i ∈ Finset.range edc.d1, edc.entry k i t * edc.entry l i t

/-- Right-hand-side term `chi.T @ Y` batched over targets. -/
noncomputable def hessXTb (edc : RTen) (Y : RMat) : ℕ → ℕ → ℝ :=
  fun t k => ∑ i ∈ Finset.range edc.d1, edc.entry k i t * Y.entry i t

/-- `_compute_deltas_hessian(exp_delta_chi, Y)`: build `XTXs`, then mutate
the diagonal through a view: `diagonal_view += diagonal_view + XTbs`. -/
noncomputable def compute_deltas_hessian (edc : RTen) (Y : RMat) : RTen :=
  ⟨edc.d2, edc.d0, edc.d0, fun t k l =>
    if k = l then hessXTX edc t k l + (hessXTX edc t k l + hessXTb edc Y t k)
    else hessXTX edc t k l⟩

/-! ## `_compute_delta_gradient` -/

/-- `chi = matmul(Ks, dual_weights)` (batched over kernels). -/
noncomputable def chiOf (Ks : RTen) (dual_weights : RMat) : RTen :=
  ⟨Ks.d0, Ks.d1, dual_weights.cols,
    fun k i t => ∑ j ∈ Finset.range Ks.d2, Ks.entry k i j * dual_weights.entry j t⟩

/-- `exp_delta[:, None, :] * chi`. -/
noncomputable def expDeltaChi (Ks : RTen) (deltas dual_weights : RMat) : RTen :=
  ⟨Ks.d0, Ks.d1, dual_weights.cols,
    fun k i t => Real.exp (deltas.entry k t) * (chiOf Ks dual_weights).entry k i t⟩

/-- `predictions = exp_delta_chi_val.sum(0)`. -/
noncomputable def predictionsOf (Ks_val : RTen) (deltas dual_weights : RMat) : RMat :=
  ⟨Ks_val.d1, dual_weights.cols,
    fun i t => ∑ k ∈ Finset.range Ks_val.d0,
      (expDeltaChi Ks_val deltas dual_weights).entry k i t⟩

/-- `residuals = predictions - Y_val`. -/
noncomputable def residualsOf (Ks_val : RTen) (Y_val deltas dual_weights : RMat) : RMat :=
  diffMat (predictionsOf Ks_val deltas dual_weights) Y_val

/-- `direct_gradient = (residuals[None] * exp_delta_chi_val).sum(1)`. -/
noncomputable def directGradient (Ks_val : RTen) (Y_val deltas dual_weights : RMat) : RMat :=
  ⟨Ks_val.d0, dual_weights.cols,
    fun k t => ∑ i ∈ Finset.range Ks_val.d1,
      (residualsOf Ks_val Y_val deltas dual_weights).entry i t *
        (expDeltaChi Ks_val deltas dual_weights).entry k i t⟩

/-- `nabla_g_1`: the train-sample-shaped right-hand side of the indirect
gradient's linear system, composed from the three transposes and two
matmuls of lines 392–397 of `_hyper_gradient.py`:
`nabla_g_1[j, t] = Σ_k (Σ_i Ks_val[k,i,j] * residuals[i,t]) * exp_delta[k,t]`. -/
noncomputable def nablaG1 (Ks_val : RTen) (Y_val deltas dual_weights : RMat) : RMat :=
  ⟨Ks_val.d2, dual_weights.cols,
    fun j t => ∑ k ∈ Finset.range Ks_val.d0,
      (∑ i ∈ Finset.range Ks_val.d1,
        Ks_val.entry k i j * (residualsOf Ks_val Y_val deltas dual_weights).entry i t) *
        Real.exp (deltas.entry k t)⟩

/-- External solver signature
`(Ks, B, gammas, initial_dual_weights, alpha, max_iter, tol) ↦ solution`
shared by `solve_kernel_ridge_conjugate_gradient` and
`solve_kernel_ridge_gradient_descent`. -/
abbrev Solver := RTen → RMat → RMat → Option RMat → ℝ → ℕ → ℝ → RMat

/-- External solver signature
`(Ks, B, gammas, max_iter, factor, alpha) ↦ solution` of
`solve_kernel_ridge_neumann_series`. -/
abbrev NSolver := RTen → RMat → RMat → ℕ → ℝ → ℝ → RMat

/-- Record of one inner linear-solver invocation performed by
`_compute_delta_gradient` (call-count instrumentation). -/
inductive CallRec where
  | cgCall (max_iter : ℕ) (tol : ℝ)
  | neumannCall (max_iter : ℕ) (factor : ℝ)

/-- Result tuple `(gradient, step_size, predictions, solution)` of
`_compute_delta_gradient`, plus the instrumentation trace of inner
linear-solver invocations. -/
structure DGOut where
  gradient : RMat
  step_size : ℕ → ℝ
  predictions : RMat
  solution : Option RMat
  callTrace : List CallRec

noncomputable instance : Inhabited DGOut :=
  ⟨⟨default, fun _ => 0, default, none, []⟩⟩

/-- Tail of `_compute_delta_gradient` in the indirect branch once the inner
linear system has been solved (lines 417–426): build the indirect gradient
from the training-kernel responses, subtract it from the direct gradient,
and run the `assert not any(isinf(gradient))` divergence check. -/
noncomputable def finishIndirect (isInf : ℝ → Bool) (KT : RTen)
    (Y_val deltas dual_weights : RMat) (Ks_val : RTen)
    (step_size : ℕ → ℝ) (predictions : RMat)
    (solution : RMat) (calls : List CallRec) : Except HgError DGOut :=
  let chi_train := chiOf KT dual_weights
  let indirect_gradient : RMat := ⟨chi_train.d0, chi_train.d2,
    fun k t => ∑ j ∈ Finset.range chi_train.d1,
      (Real.exp (deltas.entry k t) * chi_train.entry k j t) * solution.entry j t⟩
  if ¬(indirect_gradient.rows = deltas.rows ∧ indirect_gradient.cols = deltas.cols) then
    .error .assertShapeIndirect
  else
    let gradient : RMat := ⟨deltas.rows, deltas.cols,
      fun k t => (directGradient Ks_val Y_val deltas dual_weights).entry k t -
        indirect_gradient.entry k t⟩
    if anyEntry isInf gradient then .error .assertInfGradient
    else .ok ⟨gradient, step_size, predictions, some solution, calls⟩

/-- `_compute_delta_gradient` from `himalaya/ridge/_hyper_gradient.py`.
`cg`/`nm` are the external conjugate-gradient and Neumann-series solvers,
`isInf` models `backend.isinf`, `ys0` the random start vectors of the
Lipschitz power iteration. -/
noncomputable def compute_delta_gradient (cg : Solver) (nm : NSolver)
    (isInf : ℝ → Bool) (ys0 : ℕ → ℕ → ℝ)
    (Ks_val : RTen) (Y_val deltas dual_weights : RMat)
    (Ks_train : Option RTen) (tol : Option ℝ) (previous_solution : Option RMat)
    (hyper_gradient_method : HGMethod) : Except HgError DGOut :=
  let exp_delta := expMat deltas
  let predictions := predictionsOf Ks_val deltas dual_weights
  if ¬(predictions.rows = Y_val.rows ∧ predictions.cols = Y_val.cols) then
    .error .assertShapePredictions
  else
    let direct_gradient := directGradient Ks_val Y_val deltas dual_weights
    if ¬(direct_gradient.rows = deltas.rows ∧ direct_gradient.cols = deltas.cols) then
      .error .assertShapeDirectGradient
    else
      let XTXs := compute_deltas_hessian (expDeltaChi Ks_val deltas dual_weights) Y_val
      match compute_lipschitz_constants XTXs .X ys0 with
      | .error e => .error e
      | .ok lipschitz_1 =>
        let step_size : ℕ → ℝ := fun t => 1 / (lipschitz_1 t + 1e-15)
        if hyper_gradient_method = .direct then
          .ok ⟨direct_gradient, step_size, predictions, none, []⟩
        else
          let nabla_g_1 := nablaG1 Ks_val Y_val deltas dual_weights
          if ¬(nabla_g_1.rows = dual_weights.rows ∧ nabla_g_1.cols = dual_weights.cols) then
            .error .assertShapeNabla
          else
            let alpha : ℝ := 1
            match Ks_train with
            | none => .error .assertKsTrainMissing
            | some KT =>
              if hyper_gradient_method = .conjugate then
                match tol with
                | none => .error .assertTolMissing
                | some τ =>
                    finishIndirect isInf KT Y_val deltas dual_weights Ks_val
                      step_size predictions
                      (cg KT nabla_g_1 exp_delta previous_solution alpha 100 τ)
                      [CallRec.cgCall 100 τ]
              else if hyper_gradient_method = .neumann then
                finishIndirect isInf KT Y_val deltas dual_weights Ks_val
                  step_size predictions
                  (nm KT nabla_g_1 exp_delta 5 1e-5 alpha)
                  [CallRec.neumannCall 5 1e-5]
              else
                .error (.invalidHyperGradientMethod hyper_gradient_method)

/-! ## `solve_multiple_kernel_ridge_hyper_gradient` -/

/-- Configuration and external collaborators of the driver.  Scalar
`cg_tol` inputs are broadcast by the source to an array of length
`max_iter`; `cgTol` is that (per-outer-iteration) array.  `rnd` supplies
the `backend.randn` draw of the Lipschitz estimator for each
(batch, outer, inner, fold) call site. -/
structure HGConfig where
  cgSolve : Solver
  gdSolve : Solver
  neumannSolve : NSolver
  scoreF : RMat → RMat → ℕ → ℝ
  isInf : ℝ → Bool
  rnd : ℕ → ℕ → ℕ → ℕ → ℕ → ℕ → ℝ
  max_iter : ℕ
  tol : Option ℝ
  max_iter_inner_dual : ℕ
  max_iter_inner_hyper : ℕ
  cgTol : ℕ → ℝ
  n_targets_batch : Option ℕ
  hyper_gradient_method : HGMethod
  kernel_ridge_method : KRMethod
  folds : List Fold

/-- Per-target-batch context: configuration, data, the dispatched inner
solver, the batch's column window `[s, s+bw)` and the batch index `bb`. -/
structure Ctx where
  cfg : HGConfig
  Ks : RTen
  Y : RMat
  innerFn : Solver
  s : ℕ
  bw : ℕ
  bb : ℕ

/-- Mutable state of one target batch: the batch's delta columns, the
per-fold dual weights, per-fold warm starts and step sizes, and the global
score history. -/
structure BatchState where
  deltasB : RMat
  dwcv : ℕ → RMat
  prevSols : ℕ → Option RMat
  stepSizes : ℕ → ℕ → ℝ
  scoresHist : RMat

noncomputable instance : Inhabited BatchState :=
  ⟨⟨default, fun _ => default, fun _ => none, fun _ _ => 0, default⟩⟩

/-- Global state threaded across target batches. -/
structure GlobalState where
  deltas : RMat
  dual_weights : RMat
  scoresHist : RMat

noncomputable instance : Inhabited GlobalState := ⟨⟨default, default, default⟩⟩

/-- `_init_multiple_kernel_ridge` restricted to the constant / explicit-array
initializations (lines 254–295 of the source without the
`'dirichlet'`/`'ridgecv'` string strategies, which call the external
random-search solver of `_random_search.py` and are out of scope for every
claim).  `initial_deltas = none` stands for Python `None` and is mapped to
the constant 0; `Sum.inl c` is a numeric constant, `Sum.inr D` an explicit
array. -/
def init_multiple_kernel_ridge (initial_deltas : Option (ℝ ⊕ RMat))
    (initial_dual_weights : Option RMat) (Ks : RTen) (Y : RMat) : RMat × RMat :=
  let n_kernels := Ks.d0
  let n_targets := Y.cols
  let deltas : RMat :=
    match initial_deltas with
    | none => ⟨n_kernels, n_targets, fun _ _ => 0⟩
    | some (.inl c) => ⟨n_kernels, n_targets, fun _ _ => c⟩
    | some (.inr D) => D
  let dual_weights : RMat :=
    match initial_dual_weights with
    | some W => W
    | none => ⟨Y.rows, Y.cols, fun _ _ => 0⟩
  (deltas, dual_weights)

/-- The `kernel_ridge_method` dispatch of the driver (lines 92–98):
select the inner dual-weight solver or raise. -/
def selectInnerFunction (cfg : HGConfig) : Except HgError Solver :=
  match cfg.kernel_ridge_method with
  | .conjugate => .ok cfg.cgSolve
  | .gradient => .ok cfg.gdSolve
  | .other n => .error (.invalidKernelRidgeMethod (.other n))

/-- The fold `kk` as produced by `cv_splitter.split(Y)`. -/
def foldAt (cfg : HGConfig) (kk : ℕ) : Fold := cfg.folds.getD kk default

/-- Inner dual-weight refit of fold `kk` at outer iteration `ii`
(lines 129–149): on the first pass force conjugate gradient with 50
iterations and tolerance `min(1e-2, cg_tol[ii])`, afterwards use the
dispatched inner solver with the configured iteration count and the
per-iteration tolerance schedule. -/
noncomputable def dualRefitFold (ctx : Ctx) (ii : ℕ) (deltasB : RMat) (kk : ℕ)
    (dw : RMat) : RMat :=
  let f := foldAt ctx.cfg kk
  let Ks_train := sliceK ctx.Ks f.train f.train
  let Y_train := sliceY ctx.Y f.train ctx.s ctx.bw
  if ii = 0 then
    ctx.cfg.cgSolve Ks_train Y_train (expMat deltasB) (some dw) 1 50
      (min 1e-2 (ctx.cfg.cgTol ii))
  else
    ctx.innerFn Ks_train Y_train (expMat deltasB) (some dw) 1
      ctx.cfg.max_iter_inner_dual (ctx.cfg.cgTol ii)

/-- The `_compute_delta_gradient` call of fold `kk` at (outer `ii`,
inner `jj`) with the batch's current deltas, the fold's dual weights and
warm start (lines 164–174). -/
noncomputable def foldGradientCall (ctx : Ctx) (ii jj kk : ℕ) (deltasB : RMat)
    (dw : RMat) (prevSol : Option RMat) : Except HgError DGOut :=
  let f := foldAt ctx.cfg kk
  compute_delta_gradient ctx.cfg.cgSolve ctx.cfg.neumannSolve ctx.cfg.isInf
    (ctx.cfg.rnd ctx.bb ii jj kk)
    (sliceK ctx.Ks f.val f.train) (sliceY ctx.Y f.val ctx.s ctx.bw)
    deltasB dw (some (sliceK ctx.Ks f.train f.train)) (some (ctx.cfg.cgTol ii))
    prevSol ctx.cfg.hyper_gradient_method

/-- The fold loop of one inner hyper-iteration (lines 159–178): accumulate
the gradient weighted by `Y_val.shape[0] / n_samples`, record the fold's
score row, step size and warm-start solution. -/
noncomputable def foldLoop (ctx : Ctx) (ii jj : ℕ) (deltasB : RMat)
    (dwcv : ℕ → RMat) :
    List ℕ → RMat → (ℕ → ℕ → ℝ) → (ℕ → ℕ → ℝ) → (ℕ → Option RMat) →
    Except HgError (RMat × (ℕ → ℕ → ℝ) × (ℕ → ℕ → ℝ) × (ℕ → Option RMat))
  | [], grads, scores, stepSizes, prevSols => .ok (grads, scores, stepSizes, prevSols)
  | kk :: rest, grads, scores, stepSizes, prevSols =>
      match foldGradientCall ctx ii jj kk deltasB (dwcv kk) (prevSols kk) with
      | .error e => .error e
      | .ok out =>
        let Y_val := sliceY ctx.Y (foldAt ctx.cfg kk).val ctx.s ctx.bw
        let grads1 : RMat := ⟨grads.rows, grads.cols, fun k t =>
          grads.entry k t + out.gradient.entry k t * (Y_val.rows : ℝ) / (ctx.Y.rows : ℝ)⟩
        foldLoop ctx ii jj deltasB dwcv rest grads1
          (Function.update scores kk (ctx.cfg.scoreF Y_val out.predictions))
          (Function.update stepSizes kk out.step_size)
          (Function.update prevSols kk out.solution)

/-- The delta update of one inner hyper-iteration (lines 183–185):
`deltas[:, batch] -= gradients * step_size[None, :]` with the elementwise
minimum over folds of the per-fold step sizes. -/
noncomputable def innerUpdatedDeltas (nsplits : ℕ) (deltasB grads : RMat)
    (stepSizes : ℕ → ℕ → ℝ) : RMat :=
  ⟨deltasB.rows, deltasB.cols, fun k t =>
    deltasB.entry k t -
      grads.entry k t * listMin ((List.range nsplits).map fun kk => stepSizes kk t)⟩

/-- One inner hyper-iteration `jj` of outer iteration `ii` (lines 154–187):
fold loop, score-history row write at `it = ii * max_iter_inner_hyper + jj`,
delta update with fold-minimum step size, and the
`assert not any(isinf(exp(deltas[:, batch])))` divergence check. -/
noncomputable def innerHyperStep (ctx : Ctx) (ii jj : ℕ) (st : BatchState) :
    Except HgError BatchState :=
  let nsplits := ctx.cfg.folds.length
  let grads0 : RMat := ⟨st.deltasB.rows, st.deltasB.cols, fun _ _ => 0⟩
  let scores0 : ℕ → ℕ → ℝ := fun _ _ => 0
  match foldLoop ctx ii jj st.deltasB st.dwcv (List.range nsplits) grads0 scores0
      st.stepSizes st.prevSols with
  | .error e => .error e
  | .ok (grads, scores, stepSizes1, prevSols1) =>
    let it := ii * ctx.cfg.max_iter_inner_hyper + jj
    let hist1 := writeRow st.scoresHist it ctx.s ctx.bw
      (fun t => (∑ kk ∈ Finset.range nsplits, scores kk t) / (nsplits : ℝ))
    let deltas1 := innerUpdatedDeltas nsplits st.deltasB grads stepSizes1
    if anyEntry (fun x => ctx.cfg.isInf (Real.exp x)) deltas1 then
      .error .assertInfExpDeltas
    else
      .ok { deltasB := deltas1, dwcv := st.dwcv, prevSols := prevSols1,
            stepSizes := stepSizes1, scoresHist := hist1 }

/-- The inner hyper-loop `for jj in range(max_iter_inner_hyper)`,
running `fuel` iterations starting at index `jj`. -/
noncomputable def innerHyperLoop (ctx : Ctx) (ii : ℕ) :
    ℕ → ℕ → BatchState → Except HgError BatchState
  | _, 0, st => .ok st
  | jj, fuel + 1, st =>
      match innerHyperStep ctx ii jj st with
      | .error e => .error e
      | .ok st1 => innerHyperLoop ctx ii (jj + 1) fuel st1

/-- One outer iteration `ii` (lines 126–187): per-fold dual refit, copy
`deltas_old`, then the inner hyper-loop.  Returns the new state together
with `deltas_old` for the stopping criterion. -/
noncomputable def outerRound (ctx : Ctx) (ii : ℕ) (st : BatchState) :
    Except HgError (BatchState × RMat) :=
  let dwcv1 := fun kk => dualRefitFold ctx ii st.deltasB kk (st.dwcv kk)
  let deltasOld := st.deltasB
  match innerHyperLoop ctx ii 0 ctx.cfg.max_iter_inner_hyper
      { st with dwcv := dwcv1 } with
  | .error e => .error e
  | .ok st2 => .ok (st2, deltasOld)

/-- The outer loop `for ii in range(max_iter)` with the tolerance-based
early `break` (lines 122–194), instrumented with the number of outer
rounds actually executed (the driver discards that count). -/
noncomputable def outerLoopAux (ctx : Ctx) :
    ℕ → ℕ → BatchState → Except HgError (BatchState × ℕ)
  | 0, _, st => .ok (st, 0)
  | fuel + 1, ii, st =>
      match outerRound ctx ii st with
      | .error e => .error e
      | .ok (st2, deltasOld) =>
        match ctx.cfg.tol with
        | some τ =>
            if maxAbsMat (diffMat deltasOld st2.deltasB) < τ then .ok (st2, 1)
            else
              match outerLoopAux ctx fuel (ii + 1) st2 with
              | .error e => .error e
              | .ok (st3, m) => .ok (st3, m + 1)
        | none =>
            match outerLoopAux ctx fuel (ii + 1) st2 with
            | .error e => .error e
            | .ok (st3, m) => .ok (st3, m + 1)

/-- One target batch `[s, s + bw)` of the driver (lines 111–201): set up the
per-fold state, run the outer loop, then refit the dual weights once on the
entire training kernel set with 100 conjugate-gradient iterations at
tolerance `1e-3` and write the batch columns back. -/
noncomputable def batchStep (cfg : HGConfig) (Ks : RTen) (Y : RMat)
    (innerFn : Solver) (ntb : ℕ) (g : GlobalState) (bb s : ℕ) :
    Except HgError GlobalState :=
  let bw := min ntb (Y.cols - s)
  let ctx : Ctx := ⟨cfg, Ks, Y, innerFn, s, bw, bb⟩
  let st0 : BatchState :=
    { deltasB := colsSlice g.deltas s bw
      dwcv := fun kk => sliceY g.dual_weights (foldAt cfg kk).train s bw
      prevSols := fun _ => none
      stepSizes := fun _ _ => 0
      scoresHist := g.scoresHist }
  match outerLoopAux ctx cfg.max_iter 0 st0 with
  | .error e => .error e
  | .ok (st1, _) =>
    let refit := cfg.cgSolve Ks (colsSlice Y s bw) (expMat st1.deltasB)
      (some (colsSlice g.dual_weights s bw)) 1 100 1e-3
    .ok { deltas := writeCols g.deltas s bw st1.deltasB
          dual_weights := writeCols g.dual_weights s bw refit
          scoresHist := st1.scoresHist }

/-- Sequential processing of the target batches (`for bb, start in
enumerate(batch_iterates)`). -/
noncomputable def batchLoop (cfg : HGConfig) (Ks : RTen) (Y : RMat)
    (innerFn : Solver) (ntb : ℕ) :
    List (ℕ × ℕ) → GlobalState → Except HgError GlobalState
  | [], g => .ok g
  | (bb, s) :: rest, g =>
      match batchStep cfg Ks Y innerFn ntb g bb s with
      | .error e => .error e
      | .ok g1 => batchLoop cfg Ks Y innerFn ntb rest g1

/-- `backend.arange(0, n_targets, n_targets_batch)`. -/
def batchStarts (n_targets ntb : ℕ) : List ℕ :=
  (List.range ((n_targets + ntb - 1) / ntb)).map (· * ntb)

/-- `solve_multiple_kernel_ridge_hyper_gradient` from
`himalaya/ridge/_hyper_gradient.py`: initialize deltas and dual weights,
dispatch the inner solver, allocate the `(max_iter * max_iter_inner_hyper,
n_targets)` score history, process every target batch, and return
`(all_scores_mean, dual_weights, deltas)`. -/
noncomputable def solve_multiple_kernel_ridge_hyper_gradient (cfg : HGConfig)
    (Ks : RTen) (Y : RMat) (initial_deltas : Option (ℝ ⊕ RMat))
    (initial_dual_weights : Option RMat) :
    Except HgError (RMat × RMat × RMat) :=
  let n_targets := Y.cols
  let ntb := cfg.n_targets_batch.getD n_targets
  let init := init_multiple_kernel_ridge initial_deltas initial_dual_weights Ks Y
  match selectInnerFunction cfg with
  | .error e => .error e
  | .ok innerFn =>
    let g0 : GlobalState :=
      { deltas := init.1
        dual_weights := init.2
        scoresHist := ⟨cfg.max_iter * cfg.max_iter_inner_hyper, n_targets, fun _ _ => 0⟩ }
    let starts := (batchStarts n_targets ntb).enum
    match batchLoop cfg Ks Y innerFn ntb starts g0 with
    | .error e => .error e
    | .ok g => .ok (g.scoresHist, g.dual_weights, g.deltas)

/-! ## Concrete fixtures used by the witness theorems -/

/-- Concrete 1×1×1 kernel stack. -/
noncomputable def wKs : RTen := ⟨1, 1, 1, fun _ _ _ => 1⟩

/-- Concrete 1×1 target matrix. -/
noncomputable def wY : RMat := ⟨1, 1, fun _ _ => 1⟩

/-- Concrete 1×1 zero matrix. -/
noncomputable def wZ : RMat := ⟨1, 1, fun _ _ => 0⟩

/-- Concrete 2×1×1 tensor with distinct slices. -/
noncomputable def wEdc : RTen := ⟨2, 1, 1, fun k _ _ => (k : ℝ)⟩

/-- Concrete stand-in for the external iterative solvers. -/
noncomputable def wSolver : Solver := fun _ _ _ _ _ _ _ => wZ

/-- Concrete stand-in for the external Neumann-series solver. -/
noncomputable def wNSolver : NSolver := fun _ _ _ _ _ _ => wZ

/-- Concrete driver configuration (direct hypergradient, one fold,
one target, `isinf` never firing). -/
noncomputable def wCfg : HGConfig :=
  { cgSolve := wSolver
    gdSolve := wSolver
    neumannSolve := wNSolver
    scoreF := fun _ _ _ => 0
    isInf := fun _ => false
    rnd := fun _ _ _ _ _ _ => 1
    max_iter := 1
    tol := none
    max_iter_inner_dual := 1
    max_iter_inner_hyper := 1
    cgTol := fun _ => 1
    n_targets_batch := none
    hyper_gradient_method := .direct
    kernel_ridge_method := .conjugate
    folds := [⟨[0], [0]⟩] }

/-- Same configuration with `isinf` always firing. -/
noncomputable def wCfgInf : HGConfig := { wCfg with isInf := fun _ => true }

/-- Concrete per-batch context for `wCfg`. -/
noncomputable def wCtx : Ctx := ⟨wCfg, wKs, wY, wSolver, 0, 1, 0⟩

/-- Concrete per-batch context for `wCfgInf`. -/
noncomputable def wCtxInf : Ctx := ⟨wCfgInf, wKs, wY, wSolver, 0, 1, 0⟩

/-- Concrete batch state. -/
noncomputable def wSt : BatchState :=
  { deltasB := wZ
    dwcv := fun _ => wZ
    prevSols := fun _ => none
    stepSizes := fun _ _ => 0
    scoresHist := wZ }

/-- Extract the payload of a successful `Except` computation. -/
def okD {α : Type _} [Inhabited α] : Except HgError α → α
  | .ok a => a
  | .error _ => default

/-! ## Claims -/

/-- C4: `_compute_deltas_hessian`, given `exp_delta_chi` of shape
`(n_kernels, n_samples, n_targets)` and `Y`, returns a per-target array of
shape `(n_targets, n_kernels, n_kernels)` whose off-diagonal entries are
those of `chi.T @ chi` (with `chi` already reweighted by `exp(delta)` in
its input) and whose diagonal is additionally offset using the
right-hand-side term `chi.T @ Y` — the diagonal view receives
`diag + (diag + chi.T @ Y)`, so it is not the plain `chi.T @ chi`
diagonal. -/
theorem C4_deltas_hessian_shape_and_entries (edc : RTen) (Y : RMat) :
    (compute_deltas_hessian edc Y).d0 = edc.d2 ∧
    (compute_deltas_hessian edc Y).d1 = edc.d0 ∧
    (compute_deltas_hessian edc Y).d2 = edc.d0 ∧
    (∀ t k l, k ≠ l →
      (compute_deltas_hessian edc Y).entry t k l =
        ∑ i ∈ Finset.range edc.d1, edc.entry k i t * edc.entry l i t) ∧
    (∀ t k,
      (compute_deltas_hessian edc Y).entry t k k =
        (∑ i ∈ Finset.range edc.d1, edc.entry k i t * edc.entry k i t) +
        ((∑ i ∈ Finset.range edc.d1, edc.entry k i t * edc.entry k i t) +
          ∑ i ∈ Finset.range edc.d1, edc.entry k i t * Y.entry i t)) := by
  refine ⟨rfl, rfl, rfl, ?_, ?_⟩
  · intro t k l h
    simp [compute_deltas_hessian, hessXTX, h]
  · intro t k
    simp [compute_deltas_hessian, hessXTX, hessXTb]

/-- Witness for C4 at a concrete input. -/
theorem C4_witness :
    (compute_deltas_hessian wEdc wY).entry 0 0 1 =
      ∑ i ∈ Finset.range wEdc.d1, wEdc.entry 0 i 0 * wEdc.entry 1 i 0 :=
  (C4_deltas_hessian_shape_and_entries wEdc wY).2.2.2.1 0 0 1 (by decide)

/-- Helper: in `kernelize="X"` mode the Lipschitz estimator succeeds and
uses the input matrices as-is. -/
lemma lipschitz_X_ok (Xs : RTen) (ys0 : ℕ → ℕ → ℝ) :
    compute_lipschitz_constants Xs .X ys0 =
      .ok (fun m => colNorm Xs.d1 (powerIterate Xs 10 ys0 m)) := rfl

/-- Helper: a successful `finishIndirect` passes the step size through
unchanged. -/
lemma finishIndirect_ok_step_size (isInf : ℝ → Bool) (KT : RTen)
    (Y_val deltas dual_weights : RMat) (Ks_val : RTen) (ss : ℕ → ℝ)
    (preds : RMat) (sol : RMat) (calls : List CallRec) (out : DGOut)
    (h : finishIndirect isInf KT Y_val deltas dual_weights Ks_val ss preds sol
      calls = .ok out) :
    out.step_size = ss := by
  unfold finishIndirect at h
  dsimp only at h
  split at h
  · exact Except.noConfusion h
  · split at h
    · exact Except.noConfusion h
    · cases h
      rfl

/-- C5: whenever `_compute_delta_gradient` returns, the step size it
returns is `1 / (lipschitz + 1e-15)`, where the Lipschitz estimate is the
result of `compute_lipschitz_constants` on the direct-gradient Hessian in
`kernelize="X"` mode; and in `"X"` mode that estimate is obtained from the
matrices as-is (no further squaring) by exactly 10 power iterations
(each normalizing in L2 with a `1e-16` guard, then multiplying by the
matrix, cf. `powerIterate`), the final vector's norm being the eigenvalue
estimate. -/
theorem C5_step_size_from_ten_power_iterations :
    (∀ (Xs : RTen) (ys0 : ℕ → ℕ → ℝ),
      compute_lipschitz_constants Xs .X ys0 =
        .ok (fun m => colNorm Xs.d1 (powerIterate Xs 10 ys0 m))) ∧
    (∀ (cg : Solver) (nm : NSolver) (isInf : ℝ → Bool) (ys0 : ℕ → ℕ → ℝ)
        (Ks_val : RTen) (Y_val deltas dual_weights : RMat)
        (Ks_train : Option RTen) (tol : Option ℝ) (prev : Option RMat)
        (meth : HGMethod) (out : DGOut),
      compute_delta_gradient cg nm isInf ys0 Ks_val Y_val deltas dual_weights
        Ks_train tol prev meth = .ok out →
      ∀ t, out.step_size t =
        1 / (colNorm (compute_deltas_hessian (expDeltaChi Ks_val deltas dual_weights) Y_val).d1
              (powerIterate
                (compute_deltas_hessian (expDeltaChi Ks_val deltas dual_weights) Y_val)
                10 ys0 t) + 1e-15)) := by
  constructor
  · intro Xs ys0
    rfl
  · intro cg nm isInf ys0 Ks_val Y_val deltas dual_weights Ks_train tol prev meth out h t
    unfold compute_delta_gradient at h
    dsimp only at h
    rw [lipschitz_X_ok] at h
    dsimp only at h
    by_cases hA : (predictionsOf Ks_val deltas dual_weights).rows = Y_val.rows ∧
        (predictionsOf Ks_val deltas dual_weights).cols = Y_val.cols
    · rw [if_neg (not_not_intro hA)] at h
      by_cases hB : (directGradient Ks_val Y_val deltas dual_weights).rows = deltas.rows ∧
          (directGradient Ks_val Y_val deltas dual_weights).cols = deltas.cols
      · rw [if_neg (not_not_intro hB)] at h
        by_cases hm : meth = HGMethod.direct
        · rw [if_pos hm] at h
          cases h
          rfl
        · rw [if_neg hm] at h
          by_cases hN : (nablaG1 Ks_val Y_val deltas dual_weights).rows = dual_weights.rows ∧
              (nablaG1 Ks_val Y_val deltas dual_weights).cols = dual_weights.cols
          · rw [if_neg (not_not_intro hN)] at h
            cases Ks_train with
            | none => exact Except.noConfusion h
            | some KT =>
                dsimp only at h
                by_cases hc : meth = HGMethod.conjugate
                · rw [if_pos hc] at h
                  cases tol with
                  | none => exact Except.noConfusion h
                  | some τ =>
                      exact congrFun (finishIndirect_ok_step_size _ _ _ _ _ _ _ _ _ _ _ h) t
                · rw [if_neg hc] at h
                  by_cases hn : meth = HGMethod.neumann
                  · rw [if_pos hn] at h
                    exact congrFun (finishIndirect_ok_step_size _ _ _ _ _ _ _ _ _ _ _ h) t
                  · rw [if_neg hn] at h
                    exact Except.noConfusion h
          · rw [if_pos hN] at h
            exact Except.noConfusion h
      · rw [if_pos hB] at h
        exact Except.noConfusion h
    · rw [if_pos hA] at h
      exact Except.noConfusion h

/-- Witness for C5 at a concrete successful call. -/
theorem C5_witness :
    (okD (compute_delta_gradient wSolver wNSolver (fun _ => false) (fun _ _ => 1)
      wKs wY wZ wZ none none none .direct)).step_size 0 =
      1 / (colNorm (compute_deltas_hessian (expDeltaChi wKs wZ wZ) wY).d1
            (powerIterate (compute_deltas_hessian (expDeltaChi wKs wZ wZ) wY)
              10 (fun _ _ => 1) 0) + 1e-15) :=
  C5_step_size_from_ten_power_iterations.2 wSolver wNSolver (fun _ => false)
    (fun _ _ => 1) wKs wY wZ wZ none none none .direct _ rfl 0

/-- C3: with `hyper_gradient_method="direct"`, `_compute_delta_gradient`
returns the direct gradient as the gradient, performs no inner
linear-solver invocation (empty instrumentation trace, result independent
of the solver parameters `cg`/`nm`, which do not occur on the right-hand
side), and the returned warm-start solution is `None`. -/
theorem C3_direct_mode_no_inner_solve (cg : Solver) (nm : NSolver)
    (isInf : ℝ → Bool) (ys0 : ℕ → ℕ → ℝ) (Ks_val : RTen)
    (Y_val deltas dual_weights : RMat) (Ks_train : Option RTen)
    (tol : Option ℝ) (prev : Option RMat)
    (hA : (predictionsOf Ks_val deltas dual_weights).rows = Y_val.rows ∧
      (predictionsOf Ks_val deltas dual_weights).cols = Y_val.cols)
    (hB : (directGradient Ks_val Y_val deltas dual_weights).rows = deltas.rows ∧
      (directGradient Ks_val Y_val deltas dual_weights).cols = deltas.cols) :
    compute_delta_gradient cg nm isInf ys0 Ks_val Y_val deltas dual_weights
      Ks_train tol prev .direct =
      .ok ⟨directGradient Ks_val Y_val deltas dual_weights,
        fun t => 1 /
          (colNorm (compute_deltas_hessian (expDeltaChi Ks_val deltas dual_weights) Y_val).d1
            (powerIterate
              (compute_deltas_hessian (expDeltaChi Ks_val deltas dual_weights) Y_val)
              10 ys0 t) + 1e-15),
        predictionsOf Ks_val deltas dual_weights, none, []⟩ := by
  unfold compute_delta_gradient
  dsimp only
  rw [lipschitz_X_ok]
  dsimp only
  rw [if_neg (not_not_intro hA), if_neg (not_not_intro hB), if_pos rfl]

/-- Witness for C3 at a concrete input. -/
theorem C3_witness :
    compute_delta_gradient wSolver wNSolver (fun _ => false) (fun _ _ => 1)
      wKs wY wZ wZ none none none .direct =
      .ok ⟨directGradient wKs wY wZ wZ,
        fun t => 1 /
          (colNorm (compute_deltas_hessian (expDeltaChi wKs wZ wZ) wY).d1
            (powerIterate (compute_deltas_hessian (expDeltaChi wKs wZ wZ) wY)
              10 (fun _ _ => 1) t) + 1e-15),
        predictionsOf wKs wZ wZ, none, []⟩ :=
  C3_direct_mode_no_inner_solve wSolver wNSolver (fun _ => false) (fun _ _ => 1)
    wKs wY wZ wZ none none none ⟨rfl, rfl⟩ ⟨rfl, rfl⟩

/-- C8: an unknown `kernel_ridge_method` makes the driver fail with the
invalid-argument error carrying that parameter's value before any batch is
processed; an unknown `hyper_gradient_method` makes
`_compute_delta_gradient` fail likewise before any linear solve; an
unknown `kernelize` makes `compute_lipschitz_constants` fail likewise
before any power iteration. -/
theorem C8_unknown_switch_values_fail :
    (∀ (cfg : HGConfig) (Ks : RTen) (Y : RMat) (idel : Option (ℝ ⊕ RMat))
        (idw : Option RMat) (n : ℕ), cfg.kernel_ridge_method = .other n →
      solve_multiple_kernel_ridge_hyper_gradient cfg Ks Y idel idw =
        .error (.invalidKernelRidgeMethod (.other n))) ∧
    (∀ (cg : Solver) (nm : NSolver) (isInf : ℝ → Bool) (ys0 : ℕ → ℕ → ℝ)
        (Ks_val : RTen) (Y_val deltas dual_weights : RMat) (KT : RTen)
        (tol : Option ℝ) (prev : Option RMat) (n : ℕ),
      (predictionsOf Ks_val deltas dual_weights).rows = Y_val.rows ∧
        (predictionsOf Ks_val deltas dual_weights).cols = Y_val.cols →
      (directGradient Ks_val Y_val deltas dual_weights).rows = deltas.rows ∧
        (directGradient Ks_val Y_val deltas dual_weights).cols = deltas.cols →
      (nablaG1 Ks_val Y_val deltas dual_weights).rows = dual_weights.rows ∧
        (nablaG1 Ks_val Y_val deltas dual_weights).cols = dual_weights.cols →
      compute_delta_gradient cg nm isInf ys0 Ks_val Y_val deltas dual_weights
        (some KT) tol prev (.other n) =
        .error (.invalidHyperGradientMethod (.other n))) ∧
    (∀ (Xs : RTen) (ys0 : ℕ → ℕ → ℝ) (n : ℕ),
      compute_lipschitz_constants Xs (.other n) ys0 =
        .error (.invalidKernelize (.other n))) := by
  refine ⟨?_, ?_, ?_⟩
  · intro cfg Ks Y idel idw n h
    unfold solve_multiple_kernel_ridge_hyper_gradient
    simp only [selectInnerFunction, h]
  · intro cg nm isInf ys0 Ks_val Y_val deltas dual_weights KT tol prev n hA hB hN
    unfold compute_delta_gradient
    dsimp only
    rw [lipschitz_X_ok]
    dsimp only
    rw [if_neg (not_not_intro hA), if_neg (not_not_intro hB),
      if_neg (fun hh => HGMethod.noConfusion hh), if_neg (not_not_intro hN),
      if_neg (fun hh => HGMethod.noConfusion hh),
      if_neg (fun hh => HGMethod.noConfusion hh)]
  · intro Xs ys0 n
    rfl

/-- Witness for C8 at concrete inputs. -/
theorem C8_witness :
    solve_multiple_kernel_ridge_hyper_gradient
        { wCfg with kernel_ridge_method := .other 0 } wKs wY none none =
      .error (.invalidKernelRidgeMethod (.other 0)) ∧
    compute_delta_gradient wSolver wNSolver (fun _ => false) (fun _ _ => 1)
        wKs wY wZ wZ (some wKs) none none (.other 0) =
      .error (.invalidHyperGradientMethod (.other 0)) :=
  ⟨C8_unknown_switch_values_fail.1 _ wKs wY none none 0 rfl,
   C8_unknown_switch_values_fail.2.1 wSolver wNSolver (fun _ => false)
     (fun _ _ => 1) wKs wY wZ wZ wKs none none 0 ⟨rfl, rfl⟩ ⟨rfl, rfl⟩ ⟨rfl, rfl⟩⟩

/-- C9: `_compute_delta_gradient` fails fast on a missing required
argument: `Ks_train` absent with any non-"direct" method, or `tol` absent
with the "conjugate" method, each before any linear solve is attempted
(the failing assertion precedes every solver call site, and the result
does not depend on the solver parameters). -/
theorem C9_missing_required_arguments_fail_fast :
    (∀ (cg : Solver) (nm : NSolver) (isInf : ℝ → Bool) (ys0 : ℕ → ℕ → ℝ)
        (Ks_val : RTen) (Y_val deltas dual_weights : RMat)
        (tol : Option ℝ) (prev : Option RMat) (meth : HGMethod),
      meth ≠ .direct →
      (predictionsOf Ks_val deltas dual_weights).rows = Y_val.rows ∧
        (predictionsOf Ks_val deltas dual_weights).cols = Y_val.cols →
      (directGradient Ks_val Y_val deltas dual_weights).rows = deltas.rows ∧
        (directGradient Ks_val Y_val deltas dual_weights).cols = deltas.cols →
      (nablaG1 Ks_val Y_val deltas dual_weights).rows = dual_weights.rows ∧
        (nablaG1 Ks_val Y_val deltas dual_weights).cols = dual_weights.cols →
      compute_delta_gradient cg nm isInf ys0 Ks_val Y_val deltas dual_weights
        none tol prev meth = .error .assertKsTrainMissing) ∧
    (∀ (cg : Solver) (nm : NSolver) (isInf : ℝ → Bool) (ys0 : ℕ → ℕ → ℝ)
        (Ks_val : RTen) (Y_val deltas dual_weights : RMat) (KT : RTen)
        (prev : Option RMat),
      (predictionsOf Ks_val deltas dual_weights).rows = Y_val.rows ∧
        (predictionsOf Ks_val deltas dual_weights).cols = Y_val.cols →
      (directGradient Ks_val Y_val deltas dual_weights).rows = deltas.rows ∧
        (directGradient Ks_val Y_val deltas dual_weights).cols = deltas.cols →
      (nablaG1 Ks_val Y_val deltas dual_weights).rows = dual_weights.rows ∧
        (nablaG1 Ks_val Y_val deltas dual_weights).cols = dual_weights.cols →
      compute_delta_gradient cg nm isInf ys0 Ks_val Y_val deltas dual_weights
        (some KT) none prev .conjugate = .error .assertTolMissing) := by
  constructor
  · intro cg nm isInf ys0 Ks_val Y_val deltas dual_weights tol prev meth hm hA hB hN
    unfold compute_delta_gradient
    dsimp only
    rw [lipschitz_X_ok]
    dsimp only
    rw [if_neg (not_not_intro hA), if_neg (not_not_intro hB), if_neg hm,
      if_neg (not_not_intro hN)]
  · intro cg nm isInf ys0 Ks_val Y_val deltas dual_weights KT prev hA hB hN
    unfold compute_delta_gradient
    dsimp only
    rw [lipschitz_X_ok]
    dsimp only
    rw [if_neg (not_not_intro hA), if_neg (not_not_intro hB),
      if_neg (fun hh => HGMethod.noConfusion hh), if_neg (not_not_intro hN),
      if_pos rfl]

/-- Witness for C9 at concrete inputs. -/
theorem C9_witness :
    compute_delta_gradient wSolver wNSolver (fun _ => false) (fun _ _ => 1)
        wKs wY wZ wZ none none none .neumann = .error .assertKsTrainMissing ∧
    compute_delta_gradient wSolver wNSolver (fun _ => false) (fun _ _ => 1)
        wKs wY wZ wZ (some wKs) none none .conjugate = .error .assertTolMissing :=
  ⟨C9_missing_required_arguments_fail_fast.1 wSolver wNSolver (fun _ => false)
     (fun _ _ => 1) wKs wY wZ wZ none none .neumann (by decide)
     ⟨rfl, rfl⟩ ⟨rfl, rfl⟩ ⟨rfl, rfl⟩,
   C9_missing_required_arguments_fail_fast.2 wSolver wNSolver (fun _ => false)
     (fun _ _ => 1) wKs wY wZ wZ wKs none ⟨rfl, rfl⟩ ⟨rfl, rfl⟩ ⟨rfl, rfl⟩⟩

/-- C6: on the first outer iteration (`ii = 0`), the per-fold dual-weight
refit uses the conjugate-gradient solver regardless of the configured
`kernel_ridge_method`, with 50 inner iterations and tolerance
`min(1e-2, cg_tol[0])`; every later iteration uses the dispatched
user-configured solver, `max_iter_inner_dual` iterations, and the
per-iteration tolerance `cg_tol[ii]`; the dispatch picks the
conjugate-gradient solver for `"conjugate"` and the gradient-descent
solver for `"gradient"`. -/
theorem C6_first_round_forced_conjugate_gradient :
    (∀ (ctx : Ctx) (deltasB : RMat) (kk : ℕ) (dw : RMat),
      dualRefitFold ctx 0 deltasB kk dw =
        ctx.cfg.cgSolve
          (sliceK ctx.Ks (foldAt ctx.cfg kk).train (foldAt ctx.cfg kk).train)
          (sliceY ctx.Y (foldAt ctx.cfg kk).train ctx.s ctx.bw)
          (expMat deltasB) (some dw) 1 50 (min 1e-2 (ctx.cfg.cgTol 0))) ∧
    (∀ (ctx : Ctx) (ii : ℕ), ii ≠ 0 → ∀ (deltasB : RMat) (kk : ℕ) (dw : RMat),
      dualRefitFold ctx ii deltasB kk dw =
        ctx.innerFn
          (sliceK ctx.Ks (foldAt ctx.cfg kk).train (foldAt ctx.cfg kk).train)
          (sliceY ctx.Y (foldAt ctx.cfg kk).train ctx.s ctx.bw)
          (expMat deltasB) (some dw) 1 ctx.cfg.max_iter_inner_dual
          (ctx.cfg.cgTol ii)) ∧
    (∀ cfg : HGConfig, cfg.kernel_ridge_method = .conjugate →
      selectInnerFunction cfg = .ok cfg.cgSolve) ∧
    (∀ cfg : HGConfig, cfg.kernel_ridge_method = .gradient →
      selectInnerFunction cfg = .ok cfg.gdSolve) := by
  refine ⟨?_, ?_, ?_, ?_⟩
  · intro ctx deltasB kk dw
    rfl
  · intro ctx ii hii deltasB kk dw
    unfold dualRefitFold
    rw [if_neg hii]
  · intro cfg h
    simp only [selectInnerFunction, h]
  · intro cfg h
    simp only [selectInnerFunction, h]

/-- Witness for C6 at concrete inputs. -/
theorem C6_witness :
    dualRefitFold wCtx 1 wZ 0 wZ =
      wCtx.innerFn
        (sliceK wCtx.Ks (foldAt wCtx.cfg 0).train (foldAt wCtx.cfg 0).train)
        (sliceY wCtx.Y (foldAt wCtx.cfg 0).train wCtx.s wCtx.bw)
        (expMat wZ) (some wZ) 1 wCtx.cfg.max_iter_inner_dual (wCtx.cfg.cgTol 1) ∧
    selectInnerFunction wCfg = .ok wCfg.cgSolve :=
  ⟨C6_first_round_forced_conjugate_gradient.2.1 wCtx 1 (by decide) wZ 0 wZ,
   C6_first_round_forced_conjugate_gradient.2.2.1 wCfg rfl⟩

/-- Helper: characterization of the fold loop.  When every fold's
delta-gradient call (at the pre-loop warm starts) succeeds with `outs kk`
and the visited fold indices are distinct, the loop succeeds; the
accumulated gradient is the starting gradient plus the sum over folds of
each fold's gradient weighted by `val-size / n_samples`; the step-size
slots of visited folds hold that fold's own step size and the others are
untouched. -/
lemma foldLoop_spec (ctx : Ctx) (ii jj : ℕ) (deltasB : RMat) (dwcv : ℕ → RMat)
    (outs : ℕ → DGOut) (kks : List ℕ) :
    ∀ (grads : RMat) (scores stepSizes : ℕ → ℕ → ℝ)
      (prevSols : ℕ → Option RMat)
      (r : RMat × (ℕ → ℕ → ℝ) × (ℕ → ℕ → ℝ) × (ℕ → Option RMat)),
      kks.Nodup →
      (∀ kk ∈ kks, foldGradientCall ctx ii jj kk deltasB (dwcv kk) (prevSols kk) =
        .ok (outs kk)) →
      foldLoop ctx ii jj deltasB dwcv kks grads scores stepSizes prevSols = .ok r →
      (∀ k t, r.1.entry k t = grads.entry k t +
        (kks.map fun kk => (outs kk).gradient.entry k t *
          ((foldAt ctx.cfg kk).val.length : ℝ) / (ctx.Y.rows : ℝ)).sum) ∧
      (∀ kk ∈ kks, r.2.2.1 kk = (outs kk).step_size) ∧
      (∀ kk, kk ∉ kks → r.2.2.1 kk = stepSizes kk) := by
  induction kks with
  | nil =>
      intro grads scores stepSizes prevSols r _ _ h
      cases h
      refine ⟨?_, ?_, ?_⟩
      · intro k t; simp
      · intro kk hk; exact absurd hk (List.not_mem_nil kk)
      · intro kk _; rfl
  | cons kk rest ih =>
      intro grads scores stepSizes prevSols r hnd hcalls h
      have hkk : kk ∉ rest := (List.nodup_cons.mp hnd).1
      have hndr : rest.Nodup := (List.nodup_cons.mp hnd).2
      unfold foldLoop at h
      rw [hcalls kk (List.mem_cons_self kk rest)] at h
      dsimp only at h
      have hcalls' : ∀ kk' ∈ rest,
          foldGradientCall ctx ii jj kk' deltasB (dwcv kk')
            ((Function.update prevSols kk (outs kk).solution) kk') = .ok (outs kk') := by
        intro kk' hk'
        have hne : kk' ≠ kk := fun hEq => hkk (hEq ▸ hk')
        rw [Function.update_noteq hne]
        exact hcalls kk' (List.mem_cons_of_mem kk hk')
      obtain ⟨ihG, ihS, ihP⟩ := ih _ _ _ _ r hndr hcalls' h
      refine ⟨?_, ?_, ?_⟩
      · intro k t
        rw [ihG k t]
        dsimp only
        rw [List.map_cons, List.sum_cons]
        simp only [sliceY]
        rw [add_assoc]
      · intro kk'' hk''
        rcases List.mem_cons.mp hk'' with hEq | hMem
        · subst hEq
          rw [ihP kk'' hkk, Function.update_same]
        · exact ihS kk'' hMem
      · intro kk'' hk''
        have h1 : kk'' ∉ rest := fun hm => hk'' (List.mem_cons_of_mem kk hm)
        have h2 : kk'' ≠ kk := fun hEq => hk'' (hEq ▸ List.mem_cons_self kk rest)
        rw [ihP kk'' h1, Function.update_noteq h2]

/-- C1: in every inner hyper-iteration, the batch's deltas are updated by
subtracting `G * s`, where `G` is the sum over cross-validation folds of
each fold's delta gradient weighted by that fold's validation-set size
divided by the total number of samples, and `s` is, per target, the
elementwise minimum over folds of each fold's own step size. -/
theorem C1_delta_update_weighted_sum_min_step (ctx : Ctx) (ii jj : ℕ)
    (st st' : BatchState) (outs : ℕ → DGOut)
    (hcalls : ∀ kk ∈ List.range ctx.cfg.folds.length,
      foldGradientCall ctx ii jj kk st.deltasB (st.dwcv kk) (st.prevSols kk) =
        .ok (outs kk))
    (h : innerHyperStep ctx ii jj st = .ok st') :
    ∀ k t, st'.deltasB.entry k t =
      st.deltasB.entry k t -
        ((List.range ctx.cfg.folds.length).map fun kk =>
            (outs kk).gradient.entry k t *
              ((foldAt ctx.cfg kk).val.length : ℝ) / (ctx.Y.rows : ℝ)).sum *
          listMin ((List.range ctx.cfg.folds.length).map fun kk =>
            (outs kk).step_size t) := by
  intro k t
  unfold innerHyperStep at h
  dsimp only at h
  rcases hfl : foldLoop ctx ii jj st.deltasB st.dwcv
      (List.range ctx.cfg.folds.length)
      ⟨st.deltasB.rows, st.deltasB.cols, fun _ _ => 0⟩ (fun _ _ => 0)
      st.stepSizes st.prevSols with e | r
  · rw [hfl] at h
    exact Except.noConfusion h
  · obtain ⟨G, Sc, SS, PS⟩ := r
    rw [hfl] at h
    dsimp only at h
    split at h
    · exact Except.noConfusion h
    · cases h
      obtain ⟨hG, hS, _⟩ := foldLoop_spec ctx ii jj st.deltasB st.dwcv outs
        (List.range ctx.cfg.folds.length) _ _ _ _ (G, Sc, SS, PS)
        (List.nodup_range _) hcalls hfl
      show (innerUpdatedDeltas ctx.cfg.folds.length st.deltasB G SS).entry k t = _
      unfold innerUpdatedDeltas
      dsimp only
      rw [hG k t]
      have hmap : ((List.range ctx.cfg.folds.length).map fun kk => SS kk t) =
          (List.range ctx.cfg.folds.length).map fun kk => (outs kk).step_size t := by
        refine List.map_congr_left ?_
        intro kk hk
        exact congrFun (hS kk hk) t
      rw [hmap]
      simp

/-- Witness for C1 at a concrete input. -/
theorem C1_witness :
    (okD (innerHyperStep wCtx 0 0 wSt)).deltasB.entry 0 0 =
      wSt.deltasB.entry 0 0 -
        ((List.range wCtx.cfg.folds.length).map fun kk =>
            (okD (foldGradientCall wCtx 0 0 kk wSt.deltasB (wSt.dwcv kk)
              (wSt.prevSols kk))).gradient.entry 0 0 *
              ((foldAt wCtx.cfg kk).val.length : ℝ) / (wCtx.Y.rows : ℝ)).sum *
          listMin ((List.range wCtx.cfg.folds.length).map fun kk =>
            (okD (foldGradientCall wCtx 0 0 kk wSt.deltasB (wSt.dwcv kk)
              (wSt.prevSols kk))).step_size 0) :=
  C1_delta_update_weighted_sum_min_step wCtx 0 0 wSt _
    (fun kk => okD (foldGradientCall wCtx 0 0 kk wSt.deltasB (wSt.dwcv kk)
      (wSt.prevSols kk)))
    (by
      intro kk hk
      have hk0 : kk = 0 := Nat.lt_one_iff.mp (List.mem_range.mp hk)
      subst hk0
      rfl)
    rfl 0 0

/-- Helper: a successful inner hyper-iteration always passed the
`isinf(exp(deltas))` divergence check on its updated deltas. -/
lemma innerHyperStep_ok_noInf (ctx : Ctx) (ii jj : ℕ) (st st' : BatchState)
    (h : innerHyperStep ctx ii jj st = .ok st') :
    anyEntry (fun x => ctx.cfg.isInf (Real.exp x)) st'.deltasB = false := by
  unfold innerHyperStep at h
  dsimp only at h
  rcases hfl : foldLoop ctx ii jj st.deltasB st.dwcv
      (List.range ctx.cfg.folds.length)
      ⟨st.deltasB.rows, st.deltasB.cols, fun _ _ => 0⟩ (fun _ _ => 0)
      st.stepSizes st.prevSols with e | r
  · rw [hfl] at h
    exact Except.noConfusion h
  · obtain ⟨G, Sc, SS, PS⟩ := r
    rw [hfl] at h
    dsimp only at h
    split at h
    · exact Except.noConfusion h
    · cases h
      rename_i hne
      cases hb : anyEntry (fun x => ctx.cfg.isInf (Real.exp x))
          (innerUpdatedDeltas ctx.cfg.folds.length st.deltasB G SS)
      · rfl
      · exact absurd hb hne

/-- Helper: a successful inner hyper-loop that ran at least one iteration
leaves deltas that passed the divergence check. -/
lemma innerHyperLoop_ok_noInf (ctx : Ctx) (ii : ℕ) :
    ∀ (fuel jj : ℕ) (st st' : BatchState), 1 ≤ fuel →
      innerHyperLoop ctx ii jj fuel st = .ok st' →
      anyEntry (fun x => ctx.cfg.isInf (Real.exp x)) st'.deltasB = false := by
  intro fuel
  induction fuel with
  | zero => intro jj st st' hf; exact absurd hf (by omega)
  | succ n ih =>
      intro jj st st' _ h
      unfold innerHyperLoop at h
      rcases hs : innerHyperStep ctx ii jj st with e | st1
      · rw [hs] at h
        exact Except.noConfusion h
      · rw [hs] at h
        dsimp only at h
        cases n with
        | zero =>
            cases h
            exact innerHyperStep_ok_noInf ctx ii jj st st' hs
        | succ m =>
            exact ih (jj + 1) st1 st' (by omega) h

/-- Helper: a successful outer round (whose inner hyper-loop runs at least
once) leaves deltas that passed the divergence check. -/
lemma outerRound_ok_noInf (ctx : Ctx) (ii : ℕ) (st st2 : BatchState)
    (dOld : RMat) (hmih : 1 ≤ ctx.cfg.max_iter_inner_hyper)
    (h : outerRound ctx ii st = .ok (st2, dOld)) :
    anyEntry (fun x => ctx.cfg.isInf (Real.exp x)) st2.deltasB = false := by
  unfold outerRound at h
  dsimp only at h
  rcases hil : innerHyperLoop ctx ii 0 ctx.cfg.max_iter_inner_hyper
      { st with dwcv := fun kk => dualRefitFold ctx ii st.deltasB kk (st.dwcv kk) }
      with e | stx
  · rw [hil] at h
    exact Except.noConfusion h
  · rw [hil] at h
    cases h
    exact innerHyperLoop_ok_noInf ctx ii _ 0 _ st2 hmih hil

/-- Helper: a successful outer loop that executed at least one round leaves
deltas that passed the divergence check. -/
lemma outerLoopAux_ok_noInf (ctx : Ctx) :
    ∀ (fuel ii : ℕ) (st st' : BatchState) (m : ℕ), 1 ≤ fuel →
      1 ≤ ctx.cfg.max_iter_inner_hyper →
      outerLoopAux ctx fuel ii st = .ok (st', m) →
      anyEntry (fun x => ctx.cfg.isInf (Real.exp x)) st'.deltasB = false := by
  intro fuel
  induction fuel with
  | zero => intro ii st st' m hf; exact absurd hf (by omega)
  | succ n ih =>
      intro ii st st' m _ hmih h
      unfold outerLoopAux at h
      rcases hr : outerRound ctx ii st with e | p
      · rw [hr] at h
        exact Except.noConfusion h
      · obtain ⟨st2, dOld⟩ := p
        rw [hr] at h
        dsimp only at h
        rcases htol : ctx.cfg.tol with _ | τ
        · rw [htol] at h
          dsimp only at h
          rcases hrec : outerLoopAux ctx n (ii + 1) st2 with e | q
          · rw [hrec] at h
            exact Except.noConfusion h
          · obtain ⟨st3, m'⟩ := q
            rw [hrec] at h
            cases h
            cases n with
            | zero =>
                cases hrec
                exact outerRound_ok_noInf ctx ii st st' dOld hmih hr
            | succ k =>
                exact ih (ii + 1) st2 st' m' (by omega) hmih hrec
        · rw [htol] at h
          dsimp only at h
          split at h
          · cases h
            exact outerRound_ok_noInf ctx ii st st' dOld hmih hr
          · rcases hrec : outerLoopAux ctx n (ii + 1) st2 with e | q
            · rw [hrec] at h
              exact Except.noConfusion h
            · obtain ⟨st3, m'⟩ := q
              rw [hrec] at h
              cases h
              cases n with
              | zero =>
                  cases hrec
                  exact outerRound_ok_noInf ctx ii st st' dOld hmih hr
              | succ k =>
                  exact ih (ii + 1) st2 st' m' (by omega) hmih hrec

/-- C2: an inner delta update whose `exp(deltas)` contains an infinity (as
diagnosed by the modelled `isinf`) makes the iteration abort with the
divergence assertion; conversely a successful iteration, and a successful
outer loop with at least one executed inner update, leave deltas whose
`exp` passed the finiteness check at the last update; and the exp of the
deltas returned by a successful driver run is strictly positive for every
kernel and every target. -/
theorem C2_exp_deltas_finite_and_positive :
    (∀ (ctx : Ctx) (ii jj : ℕ) (st : BatchState)
        (r : RMat × (ℕ → ℕ → ℝ) × (ℕ → ℕ → ℝ) × (ℕ → Option RMat)),
      foldLoop ctx ii jj st.deltasB st.dwcv (List.range ctx.cfg.folds.length)
        ⟨st.deltasB.rows, st.deltasB.cols, fun _ _ => 0⟩ (fun _ _ => 0)
        st.stepSizes st.prevSols = .ok r →
      anyEntry (fun x => ctx.cfg.isInf (Real.exp x))
        (innerUpdatedDeltas ctx.cfg.folds.length st.deltasB r.1 r.2.2.1) = true →
      innerHyperStep ctx ii jj st = .error .assertInfExpDeltas) ∧
    (∀ (ctx : Ctx) (ii jj : ℕ) (st st' : BatchState),
      innerHyperStep ctx ii jj st = .ok st' →
      anyEntry (fun x => ctx.cfg.isInf (Real.exp x)) st'.deltasB = false) ∧
    (∀ (ctx : Ctx) (fuel ii : ℕ) (st st' : BatchState) (m : ℕ),
      1 ≤ fuel → 1 ≤ ctx.cfg.max_iter_inner_hyper →
      outerLoopAux ctx fuel ii st = .ok (st', m) →
      anyEntry (fun x => ctx.cfg.isInf (Real.exp x)) st'.deltasB = false) ∧
    (∀ (cfg : HGConfig) (Ks : RTen) (Y : RMat) (idel : Option (ℝ ⊕ RMat))
        (idw : Option RMat) (H W D : RMat),
      solve_multiple_kernel_ridge_hyper_gradient cfg Ks Y idel idw = .ok (H, W, D) →
      ∀ k t, 0 < Real.exp (D.entry k t)) := by
  refine ⟨?_, innerHyperStep_ok_noInf, outerLoopAux_ok_noInf, ?_⟩
  · intro ctx ii jj st r hfl hinf
    obtain ⟨G, Sc, SS, PS⟩ := r
    unfold innerHyperStep
    dsimp only
    rw [hfl]
    dsimp only
    rw [if_pos hinf]
  · intro cfg Ks Y idel idw H W D _ k t
    exact Real.exp_pos _

/-- Witness for C2 at concrete inputs. -/
theorem C2_witness :
    innerHyperStep wCtxInf 0 0 wSt = .error .assertInfExpDeltas ∧
    anyEntry (fun x => wCtx.cfg.isInf (Real.exp x))
      (okD (innerHyperStep wCtx 0 0 wSt)).deltasB = false ∧
    anyEntry (fun x => wCtx.cfg.isInf (Real.exp x))
      (okD (outerLoopAux wCtx 1 0 wSt)).1.deltasB = false ∧
    0 < Real.exp ((okD (solve_multiple_kernel_ridge_hyper_gradient wCfg wKs wY
      none none)).2.2.entry 0 0) :=
  ⟨C2_exp_deltas_finite_and_positive.1 wCtxInf 0 0 wSt _ rfl rfl,
   C2_exp_deltas_finite_and_positive.2.1 wCtx 0 0 wSt _ rfl,
   C2_exp_deltas_finite_and_positive.2.2.1 wCtx 1 0 wSt _ _ (by decide) (by decide) rfl,
   C2_exp_deltas_finite_and_positive.2.2.2 wCfg wKs wY none none _ _ _ rfl 0 0⟩

/-- Helper: with a batch size equal to the (positive) number of targets
there is a single batch starting at column 0. -/
lemma batchStarts_self (n : ℕ) (hn : 0 < n) : batchStarts n n = [0] := by
  unfold batchStarts
  have hdiv : (n + n - 1) / n = 1 := by
    refine Nat.div_eq_of_lt_le ?_ ?_
    · rw [Nat.one_mul]; omega
    · have : (1 + 1) * n = n + n := by ring
      rw [this]; omega
  rw [hdiv]
  show ([0 * n] : List ℕ) = [0]
  rw [Nat.zero_mul]

/-- Helper: with `max_iter = 0` a batch skips the outer loop entirely and
only performs the final full-data conjugate-gradient refit from the
incoming state. -/
lemma batchStep_max_iter_zero (cfg : HGConfig) (Ks : RTen) (Y : RMat)
    (innerFn : Solver) (ntb : ℕ) (g : GlobalState) (bb s : ℕ)
    (hmi : cfg.max_iter = 0) :
    batchStep cfg Ks Y innerFn ntb g bb s = .ok
      { deltas := writeCols g.deltas s (min ntb (Y.cols - s))
          (colsSlice g.deltas s (min ntb (Y.cols - s)))
        dual_weights := writeCols g.dual_weights s (min ntb (Y.cols - s))
          (cfg.cgSolve Ks (colsSlice Y s (min ntb (Y.cols - s)))
            (expMat (colsSlice g.deltas s (min ntb (Y.cols - s))))
            (some (colsSlice g.dual_weights s (min ntb (Y.cols - s)))) 1 100 1e-3)
        scoresHist := g.scoresHist } := by
  unfold batchStep
  rw [hmi]
  rfl

/-- C7: calling the driver with `max_iter = 0` (whole-target batch) skips
the outer loop: the returned deltas are the initializer's deltas, the
returned dual weights are the initializer's dual weights changed only by
the final full-dataset conjugate-gradient refit with 100 iterations at
tolerance `1e-3` using the initial deltas, and the score history has shape
`(0, n_targets)`. -/
theorem C7_max_iter_zero_skips_outer_loop (cfg : HGConfig) (Ks : RTen)
    (Y : RMat) (idel : Option (ℝ ⊕ RMat)) (idw : Option RMat) (H W D : RMat)
    (hmi : cfg.max_iter = 0) (hntb : cfg.n_targets_batch = none)
    (hY : 0 < Y.cols)
    (h : solve_multiple_kernel_ridge_hyper_gradient cfg Ks Y idel idw =
      .ok (H, W, D)) :
    (H.rows = 0 ∧ H.cols = Y.cols) ∧
    (∀ k t, t < Y.cols →
      D.entry k t = (init_multiple_kernel_ridge idel idw Ks Y).1.entry k t) ∧
    (∀ i t, t < Y.cols →
      W.entry i t =
        (cfg.cgSolve Ks (colsSlice Y 0 Y.cols)
          (expMat (colsSlice (init_multiple_kernel_ridge idel idw Ks Y).1 0 Y.cols))
          (some (colsSlice (init_multiple_kernel_ridge idel idw Ks Y).2 0 Y.cols))
          1 100 1e-3).entry i t) := by
  unfold solve_multiple_kernel_ridge_hyper_gradient at h
  rcases hsel : selectInnerFunction cfg with e | innerFn
  · rw [hsel] at h
    exact Except.noConfusion h
  · rw [hsel] at h
    dsimp only at h
    rw [hntb] at h
    dsimp only [Option.getD] at h
    rw [batchStarts_self Y.cols hY] at h
    rw [show ([0] : List ℕ).enum = [(0, 0)] from rfl] at h
    unfold batchLoop at h
    rw [batchStep_max_iter_zero cfg Ks Y innerFn Y.cols _ 0 0 hmi] at h
    dsimp only at h
    rw [show Y.cols - 0 = Y.cols from Nat.sub_zero _, Nat.min_self] at h
    cases h
    refine ⟨⟨?_, rfl⟩, ?_, ?_⟩
    · dsimp only
      rw [hmi, Nat.zero_mul]
    · intro k t ht
      show (writeCols _ 0 Y.cols _).entry k t = _
      unfold writeCols colsSlice
      dsimp only
      rw [if_pos (by omega)]
      congr 1
      omega
    · intro i t ht
      show (writeCols _ 0 Y.cols _).entry i t = _
      unfold writeCols
      dsimp only
      rw [if_pos (by omega), Nat.sub_zero]

/-- Witness for C7 at a concrete input. -/
theorem C7_witness :
    ((okD (solve_multiple_kernel_ridge_hyper_gradient
        { wCfg with max_iter := 0 } wKs wY none none)).1.rows = 0 ∧
      (okD (solve_multiple_kernel_ridge_hyper_gradient
        { wCfg with max_iter := 0 } wKs wY none none)).1.cols = wY.cols) ∧
    (okD (solve_multiple_kernel_ridge_hyper_gradient
        { wCfg with max_iter := 0 } wKs wY none none)).2.2.entry 0 0 =
      (init_multiple_kernel_ridge none none wKs wY).1.entry 0 0 ∧
    (okD (solve_multiple_kernel_ridge_hyper_gradient
        { wCfg with max_iter := 0 } wKs wY none none)).2.1.entry 0 0 =
      (({ wCfg with max_iter := 0 } : HGConfig).cgSolve wKs (colsSlice wY 0 wY.cols)
        (expMat (colsSlice (init_multiple_kernel_ridge none none wKs wY).1 0 wY.cols))
        (some (colsSlice (init_multiple_kernel_ridge none none wKs wY).2 0 wY.cols))
        1 100 1e-3).entry 0 0 := by
  obtain ⟨h1, h2, h3⟩ := C7_max_iter_zero_skips_outer_loop
    { wCfg with max_iter := 0 } wKs wY none none _ _ _ rfl rfl (by decide) rfl
  exact ⟨h1, h2 0 0 (by decide), h3 0 0 (by decide)⟩

/-- Helper: one inner hyper-iteration preserves the score-history shape and
writes only row `ii * max_iter_inner_hyper + jj` within the batch's column
window. -/
lemma innerHyperStep_hist (ctx : Ctx) (ii jj : ℕ) (st st' : BatchState)
    (h : innerHyperStep ctx ii jj st = .ok st') :
    st'.scoresHist.rows = st.scoresHist.rows ∧
    st'.scoresHist.cols = st.scoresHist.cols ∧
    ∀ r c, (r ≠ ii * ctx.cfg.max_iter_inner_hyper + jj ∨ c < ctx.s ∨
        ctx.s + ctx.bw ≤ c) →
      st'.scoresHist.entry r c = st.scoresHist.entry r c := by
  unfold innerHyperStep at h
  dsimp only at h
  rcases hfl : foldLoop ctx ii jj st.deltasB st.dwcv
      (List.range ctx.cfg.folds.length)
      ⟨st.deltasB.rows, st.deltasB.cols, fun _ _ => 0⟩ (fun _ _ => 0)
      st.stepSizes st.prevSols with e | r
  · rw [hfl] at h
    exact Except.noConfusion h
  · obtain ⟨G, Sc, SS, PS⟩ := r
    rw [hfl] at h
    dsimp only at h
    split at h
    · exact Except.noConfusion h
    · cases h
      refine ⟨rfl, rfl, ?_⟩
      intro r c hco
      dsimp only
      unfold writeRow
      dsimp only
      rw [if_neg]
      rintro ⟨h1, h2, h3⟩
      rcases hco with hx | hx | hx <;> omega

/-- Helper: the inner hyper-loop starting at `jj` with `fuel` iterations
preserves the score-history shape and writes only rows
`ii * max_iter_inner_hyper + q` for `jj ≤ q < jj + fuel` within the
batch's column window. -/
lemma innerHyperLoop_hist (ctx : Ctx) (ii : ℕ) :
    ∀ (fuel jj : ℕ) (st st' : BatchState),
      innerHyperLoop ctx ii jj fuel st = .ok st' →
      st'.scoresHist.rows = st.scoresHist.rows ∧
      st'.scoresHist.cols = st.scoresHist.cols ∧
      ∀ r c, ((∀ q, jj ≤ q → q < jj + fuel →
          r ≠ ii * ctx.cfg.max_iter_inner_hyper + q) ∨ c < ctx.s ∨
          ctx.s + ctx.bw ≤ c) →
        st'.scoresHist.entry r c = st.scoresHist.entry r c := by
  intro fuel
  induction fuel with
  | zero =>
      intro jj st st' h
      cases h
      exact ⟨rfl, rfl, fun _ _ _ => rfl⟩
  | succ n ih =>
      intro jj st st' h
      unfold innerHyperLoop at h
      rcases hs : innerHyperStep ctx ii jj st with e | st1
      · rw [hs] at h
        exact Except.noConfusion h
      · rw [hs] at h
        dsimp only at h
        obtain ⟨d1, d2, loc1⟩ := innerHyperStep_hist ctx ii jj st st1 hs
        obtain ⟨e1, e2, loc2⟩ := ih (jj + 1) st1 st' h
        refine ⟨e1.trans d1, e2.trans d2, ?_⟩
        intro r c hco
        have step2 : st'.scoresHist.entry r c = st1.scoresHist.entry r c := by
          refine loc2 r c ?_
          rcases hco with hx | hx | hx
          · exact Or.inl fun q hq1 hq2 => hx q (by omega) (by omega)
          · exact Or.inr (Or.inl hx)
          · exact Or.inr (Or.inr hx)
        have step1 : st1.scoresHist.entry r c = st.scoresHist.entry r c := by
          refine loc1 r c ?_
          rcases hco with hx | hx | hx
          · exact Or.inl (hx jj (by omega) (by omega))
          · exact Or.inr (Or.inl hx)
          · exact Or.inr (Or.inr hx)
        exact step2.trans step1

/-- Helper: one outer round preserves the score-history shape and writes
only rows of its own outer iteration within the batch's column window. -/
lemma outerRound_hist (ctx : Ctx) (ii : ℕ) (st st2 : BatchState) (dOld : RMat)
    (h : outerRound ctx ii st = .ok (st2, dOld)) :
    st2.scoresHist.rows = st.scoresHist.rows ∧
    st2.scoresHist.cols = st.scoresHist.cols ∧
    ∀ r c, ((∀ q, q < ctx.cfg.max_iter_inner_hyper →
        r ≠ ii * ctx.cfg.max_iter_inner_hyper + q) ∨ c < ctx.s ∨
        ctx.s + ctx.bw ≤ c) →
      st2.scoresHist.entry r c = st.scoresHist.entry r c := by
  unfold outerRound at h
  dsimp only at h
  rcases hil : innerHyperLoop ctx ii 0 ctx.cfg.max_iter_inner_hyper
      { st with dwcv := fun kk => dualRefitFold ctx ii st.deltasB kk (st.dwcv kk) }
      with e | stx
  · rw [hil] at h
    exact Except.noConfusion h
  · rw [hil] at h
    cases h
    obtain ⟨d1, d2, loc⟩ := innerHyperLoop_hist ctx ii
      ctx.cfg.max_iter_inner_hyper 0 _ st2 hil
    refine ⟨d1, d2, ?_⟩
    intro r c hco
    refine loc r c ?_
    rcases hco with hx | hx | hx
    · exact Or.inl fun q _ hq2 => hx q (by omega)
    · exact Or.inr (Or.inl hx)
    · exact Or.inr (Or.inr hx)

/-- Helper: the outer loop preserves the score-history shape and, having
executed `m` rounds from outer index `ii`, leaves every row outside
`[ii * max_iter_inner_hyper, (ii + m) * max_iter_inner_hyper)` and every
column outside the batch window untouched — in particular the rows of
outer rounds skipped by the early `break` keep their previous (initially
zero) values. -/
lemma outerLoopAux_hist (ctx : Ctx) :
    ∀ (fuel ii : ℕ) (st st' : BatchState) (m : ℕ),
      outerLoopAux ctx fuel ii st = .ok (st', m) →
      st'.scoresHist.rows = st.scoresHist.rows ∧
      st'.scoresHist.cols = st.scoresHist.cols ∧
      ∀ r c, (r < ii * ctx.cfg.max_iter_inner_hyper ∨
          (ii + m) * ctx.cfg.max_iter_inner_hyper ≤ r ∨ c < ctx.s ∨
          ctx.s + ctx.bw ≤ c) →
        st'.scoresHist.entry r c = st.scoresHist.entry r c := by
  intro fuel
  induction fuel with
  | zero =>
      intro ii st st' m h
      cases h
      exact ⟨rfl, rfl, fun _ _ _ => rfl⟩
  | succ n ih =>
      intro ii st st' m h
      unfold outerLoopAux at h
      rcases hr : outerRound ctx ii st with e | p
      · rw [hr] at h
        exact Except.noConfusion h
      · obtain ⟨st2, dOld⟩ := p
        rw [hr] at h
        dsimp only at h
        obtain ⟨d1, d2, rloc⟩ := outerRound_hist ctx ii st st2 dOld hr
        have hM1 : (ii + 1) * ctx.cfg.max_iter_inner_hyper =
            ii * ctx.cfg.max_iter_inner_hyper + ctx.cfg.max_iter_inner_hyper := by
          ring
        rcases htol : ctx.cfg.tol with _ | τ
        · rw [htol] at h
          dsimp only at h
          rcases hrec : outerLoopAux ctx n (ii + 1) st2 with e | q
          · rw [hrec] at h
            exact Except.noConfusion h
          · obtain ⟨st3, m'⟩ := q
            rw [hrec] at h
            cases h
            obtain ⟨f1, f2, floc⟩ := ih (ii + 1) st2 st' m' hrec
            refine ⟨f1.trans d1, f2.trans d2, ?_⟩
            intro r c hco
            have hMm : (ii + (m' + 1)) * ctx.cfg.max_iter_inner_hyper =
                (ii + 1 + m') * ctx.cfg.max_iter_inner_hyper := by
              ring
            have hMsplit : (ii + 1 + m') * ctx.cfg.max_iter_inner_hyper =
                ii * ctx.cfg.max_iter_inner_hyper +
                  ctx.cfg.max_iter_inner_hyper +
                  m' * ctx.cfg.max_iter_inner_hyper := by
              ring
            have step2 : st'.scoresHist.entry r c = st2.scoresHist.entry r c := by
              refine floc r c ?_
              rcases hco with hx | hx | hx | hx
              · exact Or.inl (by omega)
              · exact Or.inr (Or.inl (by omega))
              · exact Or.inr (Or.inr (Or.inl hx))
              · exact Or.inr (Or.inr (Or.inr hx))
            have step1 : st2.scoresHist.entry r c = st.scoresHist.entry r c := by
              refine rloc r c ?_
              rcases hco with hx | hx | hx | hx
              · exact Or.inl fun q hq => by omega
              · exact Or.inl fun q hq => by omega
              · exact Or.inr (Or.inl hx)
              · exact Or.inr (Or.inr hx)
            exact step2.trans step1
        · rw [htol] at h
          dsimp only at h
          split at h
          · cases h
            refine ⟨d1, d2, ?_⟩
            intro r c hco
            refine rloc r c ?_
            rcases hco with hx | hx | hx | hx
            · exact Or.inl fun q hq => by omega
            · exact Or.inl fun q hq => by omega
            · exact Or.inr (Or.inl hx)
            · exact Or.inr (Or.inr hx)
          · rcases hrec : outerLoopAux ctx n (ii + 1) st2 with e | q
            · rw [hrec] at h
              exact Except.noConfusion h
            · obtain ⟨st3, m'⟩ := q
              rw [hrec] at h
              cases h
              obtain ⟨f1, f2, floc⟩ := ih (ii + 1) st2 st' m' hrec
              refine ⟨f1.trans d1, f2.trans d2, ?_⟩
              intro r c hco
              have hMm : (ii + (m' + 1)) * ctx.cfg.max_iter_inner_hyper =
                  (ii + 1 + m') * ctx.cfg.max_iter_inner_hyper := by
                ring
              have hMsplit : (ii + 1 + m') * ctx.cfg.max_iter_inner_hyper =
                  ii * ctx.cfg.max_iter_inner_hyper +
                    ctx.cfg.max_iter_inner_hyper +
                    m' * ctx.cfg.max_iter_inner_hyper := by
                ring
              have step2 : st'.scoresHist.entry r c = st2.scoresHist.entry r c := by
                refine floc r c ?_
                rcases hco with hx | hx | hx | hx
                · exact Or.inl (by omega)
                · exact Or.inr (Or.inl (by omega))
                · exact Or.inr (Or.inr (Or.inl hx))
                · exact Or.inr (Or.inr (Or.inr hx))
              have step1 : st2.scoresHist.entry r c = st.scoresHist.entry r c := by
                refine rloc r c ?_
                rcases hco with hx | hx | hx | hx
                · exact Or.inl fun q hq => by omega
                · exact Or.inl fun q hq => by omega
                · exact Or.inr (Or.inl hx)
                · exact Or.inr (Or.inr hx)
              exact step2.trans step1

/-- Helper: one batch step preserves the score-history shape. -/
lemma batchStep_hist_dims (cfg : HGConfig) (Ks : RTen) (Y : RMat)
    (innerFn : Solver) (ntb : ℕ) (g : GlobalState) (bb s : ℕ) (g1 : GlobalState)
    (h : batchStep cfg Ks Y innerFn ntb g bb s = .ok g1) :
    g1.scoresHist.rows = g.scoresHist.rows ∧
    g1.scoresHist.cols = g.scoresHist.cols := by
  unfold batchStep at h
  dsimp only at h
  rcases hol : outerLoopAux ⟨cfg, Ks, Y, innerFn, s, min ntb (Y.cols - s), bb⟩
      cfg.max_iter 0
      { deltasB := colsSlice g.deltas s (min ntb (Y.cols - s))
        dwcv := fun kk => sliceY g.dual_weights (foldAt cfg kk).train s
          (min ntb (Y.cols - s))
        prevSols := fun _ => none
        stepSizes := fun _ _ => 0
        scoresHist := g.scoresHist } with e | p
  · rw [hol] at h
    exact Except.noConfusion h
  · obtain ⟨st1, m⟩ := p
    rw [hol] at h
    cases h
    obtain ⟨d1, d2, _⟩ := outerLoopAux_hist _ _ _ _ _ _ hol
    exact ⟨d1, d2⟩

/-- Helper: the batch loop preserves the score-history shape. -/
lemma batchLoop_hist_dims (cfg : HGConfig) (Ks : RTen) (Y : RMat)
    (innerFn : Solver) (ntb : ℕ) :
    ∀ (l : List (ℕ × ℕ)) (g g' : GlobalState),
      batchLoop cfg Ks Y innerFn ntb l g = .ok g' →
      g'.scoresHist.rows = g.scoresHist.rows ∧
      g'.scoresHist.cols = g.scoresHist.cols := by
  intro l
  induction l with
  | nil =>
      intro g g' h
      cases h
      exact ⟨rfl, rfl⟩
  | cons p rest ih =>
      intro g g' h
      obtain ⟨bb, s⟩ := p
      unfold batchLoop at h
      rcases hb : batchStep cfg Ks Y innerFn ntb g bb s with e | g1
      · rw [hb] at h
        exact Except.noConfusion h
      · rw [hb] at h
        dsimp only at h
        obtain ⟨d1, d2⟩ := batchStep_hist_dims cfg Ks Y innerFn ntb g bb s g1 hb
        obtain ⟨e1, e2⟩ := ih g1 g' h
        exact ⟨e1.trans d1, e2.trans d2⟩

/-- C10: the score history returned by the driver always has the full
shape `(max_iter * max_iter_inner_hyper, n_targets)` regardless of early
convergence; and the outer loop writes a history row only when its
outer-by-inner iteration pair actually executes for the batch, so when a
batch stops early all rows belonging to the skipped iterations (and all
columns outside the batch window) keep their previous — initially zero —
values. -/
theorem C10_score_history_shape_and_sparsity :
    (∀ (cfg : HGConfig) (Ks : RTen) (Y : RMat) (idel : Option (ℝ ⊕ RMat))
        (idw : Option RMat) (H W D : RMat),
      solve_multiple_kernel_ridge_hyper_gradient cfg Ks Y idel idw =
        .ok (H, W, D) →
      H.rows = cfg.max_iter * cfg.max_iter_inner_hyper ∧ H.cols = Y.cols) ∧
    (∀ (ctx : Ctx) (fuel ii : ℕ) (st st' : BatchState) (m : ℕ),
      outerLoopAux ctx fuel ii st = .ok (st', m) →
      ∀ r c, (r < ii * ctx.cfg.max_iter_inner_hyper ∨
          (ii + m) * ctx.cfg.max_iter_inner_hyper ≤ r ∨ c < ctx.s ∨
          ctx.s + ctx.bw ≤ c) →
        st'.scoresHist.entry r c = st.scoresHist.entry r c) := by
  constructor
  · intro cfg Ks Y idel idw H W D h
    unfold solve_multiple_kernel_ridge_hyper_gradient at h
    rcases hsel : selectInnerFunction cfg with e | innerFn
    · rw [hsel] at h
      exact Except.noConfusion h
    · rw [hsel] at h
      dsimp only at h
      rcases hbl : batchLoop cfg Ks Y innerFn
          (cfg.n_targets_batch.getD Y.cols) ((batchStarts Y.cols
            (cfg.n_targets_batch.getD Y.cols)).enum)
          { deltas := (init_multiple_kernel_ridge idel idw Ks Y).1
            dual_weights := (init_multiple_kernel_ridge idel idw Ks Y).2
            scoresHist := ⟨cfg.max_iter * cfg.max_iter_inner_hyper, Y.cols,
              fun _ _ => 0⟩ } with e | g
      · rw [hbl] at h
        exact Except.noConfusion h
      · rw [hbl] at h
        cases h
        obtain ⟨d1, d2⟩ := batchLoop_hist_dims cfg Ks Y innerFn _ _ _ _ hbl
        exact ⟨d1, d2⟩
  · intro ctx fuel ii st st' m h
    exact (outerLoopAux_hist ctx fuel ii st st' m h).2.2

/-- Witness for C10 at concrete inputs. -/
theorem C10_witness :
    ((okD (solve_multiple_kernel_ridge_hyper_gradient wCfg wKs wY
        none none)).1.rows = wCfg.max_iter * wCfg.max_iter_inner_hyper ∧
      (okD (solve_multiple_kernel_ridge_hyper_gradient wCfg wKs wY
        none none)).1.cols = wY.cols) ∧
    (okD (outerLoopAux wCtx 0 0 wSt)).1.scoresHist.entry 0 0 =
      wSt.scoresHist.entry 0 0 :=
  ⟨C10_score_history_shape_and_sparsity.1 wCfg wKs wY none none _ _ _ rfl,
   C10_score_history_shape_and_sparsity.2 wCtx 0 0 wSt _ _ rfl 0 0
     (Or.inr (Or.inl (by decide)))⟩

end Himalaya
